import Mathlib

/-!
Verification of the webrecorder/autobrowser injected-behavior scripts.

The development shallowly embeds the JavaScript behaviors as Lean functions.
Strings are modelled as `List Char` (matching JS strings as char sequences);
DOM interaction is modelled by explicit environments: a page is a
time-indexed snapshot of candidate nodes, time advancing at every suspension
point (awaited delay or generator yield) of the single-threaded script.
-/

/-! ## String primitives (JS `String.prototype.startsWith` / `trim`) -/

/-- Model of JS `test.startsWith(pre)` on char lists. -/
def strStarts : List Char → List Char → Bool
  | [], _ => true
  | _ :: _, [] => false
  | p :: ps, c :: cs => p == c && strStarts ps cs

/-- Substring occurrence test: `needle` occurs somewhere inside `hay`
(the semantics of XPath `contains(@class, needle)`). -/
def containsSeq : List Char → List Char → Bool
  | p, [] => strStarts p []
  | p, c :: cs => strStarts p (c :: cs) || containsSeq p cs

/-- Model of JS `String.prototype.trim`: strip whitespace from both ends. -/
def trimL (s : List Char) : List Char :=
  ((s.dropWhile Char.isWhitespace).reverse.dropWhile Char.isWhitespace).reverse

theorem strStarts_iff (p : List Char) :
    ∀ s, strStarts p s = true ↔ ∃ r, s = p ++ r := by
  induction p with
  | nil => intro s; simp [strStarts]
  | cons a ps ih =>
    intro s
    cases s with
    | nil => simp [strStarts]
    | cons c cs =>
      simp only [strStarts, Bool.and_eq_true, beq_iff_eq, ih cs]
      constructor
      · rintro ⟨rfl, r, rfl⟩; exact ⟨r, rfl⟩
      · rintro ⟨r, h⟩
        injection h with h1 h2
        exact ⟨h1.symm, r, h2⟩

theorem strStarts_self_append (p r : List Char) : strStarts p (p ++ r) = true := by
  exact (strStarts_iff p _).mpr ⟨r, rfl⟩

theorem containsSeq_of_suffix (p pre : List Char) :
    containsSeq p (pre ++ p) = true := by
  induction pre with
  | nil =>
    cases p with
    | nil => simp [containsSeq, strStarts]
    | cons c cs =>
      simp only [List.nil_append, containsSeq]
      have := strStarts_self_append (c :: cs) []
      simp only [List.append_nil] at this
      simp [this]
  | cons b bs ih => simp [containsSeq, ih]

theorem containsSeq_append_left (p s r : List Char) (h : containsSeq p s = true) :
    containsSeq p (s ++ r) = true := by
  induction s with
  | nil =>
    cases p with
    | nil => cases r <;> simp [containsSeq, strStarts]
    | cons c cs => simp [containsSeq, strStarts] at h
  | cons c cs ih =>
    simp only [containsSeq, Bool.or_eq_true] at h ⊢
    rcases h with h | h
    · left
      rcases (strStarts_iff p _).mp h with ⟨tail, htail⟩
      have heq : (c :: cs) ++ r = p ++ (tail ++ r) := by rw [htail]; simp
      have := strStarts_self_append p (tail ++ r)
      rw [← heq] at this
      exact this
    · right; exact ih h

/-! ## URL parsing environment model

The behaviors parse candidate hrefs with the browser's WHATWG `URL` parser
(`this.urlParer.href = test`) and read back `.protocol`.  The parser is a
browser primitive, not repository code; it is modelled here on the fragment
the behaviors rely on: a string parses only if it begins with a valid scheme
(`ALPHA *( ALPHA / DIGIT / "+" / "-" / "." )` followed by `:`), and
`.protocol` is the lower-cased scheme plus `":"`. -/

/-- Characters allowed after the first character of a URL scheme. -/
def isSchemeChar (c : Char) : Bool :=
  c.isAlphanum || c == '+' || c == '-' || c == '.'

/-- Scan for the scheme: accumulate chars until the first `':'`. -/
def schemeScan : List Char → List Char → Option (List Char)
  | _, [] => none
  | acc, c :: rest =>
    if c == ':' then some acc.reverse
    else if isSchemeChar c then schemeScan (c :: acc) rest
    else none

/-- The `.protocol` a browser `URL` object reports for `s`, or `none` when
assigning `s` to `.href` throws (unparsable URL). -/
def urlProtocol (s : List Char) : Option (List Char) :=
  match s with
  | [] => none
  | c :: _ =>
    if c.isAlpha then
      match schemeScan [] s with
      | some sch => some ((sch.map Char.toLower) ++ [':'])
      | none => none
    else none

/-! ## Link Collector (`OutLinkCollector`, src/unnamed/part_000) -/

/-- The `this.ignored` prefix list of `OutLinkCollector`. -/
def ignoredPres : List (List Char) :=
  ["about:".toList, "data:".toList, "mailto:".toList, "javascript:".toList,
   "js:".toList, "\x7b".toList, "*".toList, "ftp:".toList, "tel:".toList]

/-- The `this.good` scheme allow-list: `{ 'http:': true, 'https:': true }`
looked up at the parsed protocol (written with `\x7b`/`\x7d` braces). -/
def goodScheme (proto : List Char) : Bool :=
  proto == "http:".toList || proto == "https:".toList

/-- `OutLinkCollector.shouldIgnore(test)`: scan the ignore-prefix list (the
`while (i--)` loop); only when no prefix matched, parse the URL and test the
scheme allow-list; `return !(parsed && this.good[protocol])`. -/
def shouldIgnore (test : List Char) : Bool :=
  if ignoredPres.any (fun p => strStarts p test) then true
  else
    match urlProtocol test with
    | some proto => !goodScheme proto
    | none => true

/-- Instrumented `shouldIgnore`: second component records whether the URL
parser was invoked (`this.urlParer.href = test` executed). -/
def shouldIgnoreInstr (test : List Char) : Bool × Bool :=
  if ignoredPres.any (fun p => strStarts p test) then (true, false)
  else
    match urlProtocol test with
    | some proto => (!goodScheme proto, true)
    | none => (true, true)

/-- The free-standing `shouldIgnoreLink(test)` of facebookNewsFeed.js and
instagramUser.js, instrumented the same way.  There `let ignored = false;
let i = ignored.length;` reads `.length` of the boolean `false` (giving
`undefined`), so `while (i--)` evaluates `undefined--` (`NaN`, falsy) and the
prefix loop body never runs: the function always falls through to the URL
parse. -/
def shouldIgnoreLinkInstr (test : List Char) : Bool × Bool :=
  match urlProtocol test with
  | some proto => (!goodScheme proto, true)
  | none => (true, true)

/-- `OutLinkCollector.addOutlink` (also the body of the `addOutLinks` loop):
trim the href and insert it unless empty, already present, or ignored. -/
def addOutlink (outlinks : List (List Char)) (rawHref : List Char) :
    List (List Char) :=
  let href := trimL rawHref
  if href.isEmpty then outlinks
  else if outlinks.contains href then outlinks
  else if shouldIgnore href then outlinks
  else outlinks ++ [href]

/-- `OutLinkCollector.addOutLinks(outlinks)`: the `while (i--)` loop visits
the node list from the last index down to 0, applying the `addOutlink`
logic to each href. -/
def addOutLinks (outlinks : List (List Char)) (toAdd : List (List Char)) :
    List (List Char) :=
  toAdd.reverse.foldl addOutlink outlinks

/-! ## Scroll heuristics (`scrollToElemOffset`, facebookNewsFeed.js;
`scrollIt`, facebookFeed.js / slideShare.js bundle) -/

/-- The scroll operation a behavior performs for a node. -/
inductive ScrollAction where
  | intoViewCenter
  | toOffset (top : Int)
deriving DecidableEq

/-- `scrollToElemOffset(elem)`: if `elem.offsetTop === 0` fall back to
`scrollIntoView` (behavior smooth, block/inline center); otherwise
`window.scrollTo({left: 0, top: elem.offsetTop})`. -/
def scrollToElemOffset (offTop : Int) : ScrollAction :=
  if offTop = 0 then ScrollAction.intoViewCenter else ScrollAction.toOffset offTop

/-- `scrollIt(elem)` of the facebookFeed.js / slideShare.js bundles: same
decision on `elem.offsetTop`, then a fixed settle delay either way. -/
def scrollIt (offTop : Int) : ScrollAction :=
  if offTop = 0 then ScrollAction.intoViewCenter else ScrollAction.toOffset offTop

/-! ## Traversal engine model (facebookNewsFeed.js `makeIterator` and the
slideShare.js-bundled `newsFeedIterator` with the `$WRSTP$` stop flag)

The engine is a single-threaded async generator.  Page state can only change
while the generator is suspended (an awaited delay or a `yield`), so the
model indexes the page by a logical time `t` that advances by one at every
suspension point.  An environment assigns to each time the snapshot of
candidate feed-item divs (the nodes matched by the
`//div[starts-with(@id,"hyperfeed_story_id") ...]` query before the
visited-marker filter), the `canScrollMore()` reading and the value of the
`window.$WRSTP$` global.  The classes added by `markElemAsVisited` are run
state: the page never removes them. -/

/-- One candidate feed-item div: its identity, current `offsetTop`, and the
page-controlled part of its `class` attribute. -/
structure FBENode where
  nid : Nat
  offsetTop : Int
  classAttr : List Char
deriving DecidableEq

/-- Page snapshot at one logical time. -/
structure PageMoment where
  items : List FBENode
  canScroll : Bool
  stop : Bool

/-- The marker `markElemAsVisited` adds in facebookNewsFeed.js
(`elem.classList.add('wrvistited')`). -/
def fbMarker : List Char := "wrvistited".toList

/-- The substring the facebookNewsFeed.js XPath query rejects:
`not(contains(@class, "wrvistited"))`. -/
def fbQueryMarker : List Char := "wrvistited".toList

/-- The marker of the slideShare.js-bundled `newsFeedIterator`
(`feedItem.classList.add('$wrvistited$')`), also the substring its XPath
query rejects. -/
def wrMarker : List Char := "$wrvistited$".toList

/-- The `class` attribute of node `n` as the query sees it, given the set of
node ids the run has marked: `classList.add` appended the marker token. -/
def effClassAttr (marker : List Char) (marked : List Nat) (n : FBENode) :
    List Char :=
  if marked.contains n.nid then n.classAttr ++ (' ' :: marker) else n.classAttr

/-- `getFeedItems`: evaluate the XPath query (feed-item divs whose class does
not contain the marker) and apply `newsFeedItemFilter`
(`elem.offsetTop !== 0`); returns node ids in document order. -/
def getFeedItems (marker : List Char) (env : Nat → PageMoment) (t : Nat)
    (marked : List Nat) : List Nat :=
  ((env t).items.filter
    (fun n => !containsSeq marker (effClassAttr marker marked n) &&
              n.offsetTop != 0)).map (fun n => n.nid)

/-- Reading `elem.offsetTop` at time `t`: a node detached from the document
reports offset `0`. -/
def offsetAt (env : Nat → PageMoment) (t : Nat) (nid : Nat) : Int :=
  match (env t).items.find? (fun n => n.nid == nid) with
  | some n => n.offsetTop
  | none => 0

/-- Observable events of a traversal run, tagged with the logical time at
which the synchronous action happened. -/
inductive Ev where
  | scrolled (nid : Nat) (act : ScrollAction)
  | yielded (nid : Nat)
  | loadWait
  | loopCheck (cont : Bool)
deriving DecidableEq

/-- Whether an event begins a wait (an awaited delay): the per-item scroll
carries its settle delay, and `loadWait` is the `await delay()` taken when a
re-query comes back empty. -/
def isWaitEv : Ev → Bool
  | Ev.scrolled _ _ => true
  | Ev.loadWait => true
  | _ => false

/-- Run state of a traversal: current logical time and marked node ids in
marking order. -/
structure RunSt where
  t : Nat
  marked : List Nat
deriving DecidableEq

/-- The node ids carried by the `yielded` events of a trace, in order. -/
def yieldIds (tr : List (Nat × Ev)) : List Nat :=
  tr.filterMap (fun e => match e.2 with | Ev.yielded n => some n | _ => none)

/-- The external driver calls `$WRIteratorHandler$` once per resumption:
one call per yield plus the final call that observes `done`. -/
def advanceCalls (tr : List (Nat × Ev)) : Nat := (yieldIds tr).length + 1

/-- Inner `while (feedItems.length > 0)` loop of facebookNewsFeed.js
`makeIterator`: shift the next candidate, `scrollToElemOffsetWithDelay`
(reads `offsetTop`, scrolls, awaits the settle delay), `markElemAsVisited`,
collect outlinks, `yield`.  The scroll delay and the yield each advance
logical time by one. -/
def fbInner (env : Nat → PageMoment) : List Nat → RunSt → List (Nat × Ev) × RunSt
  | [], st => ([], st)
  | nid :: rest, st =>
    let act := scrollToElemOffset (offsetAt env st.t nid)
    let r := fbInner env rest ⟨st.t + 2, st.marked ++ [nid]⟩
    ((st.t, Ev.scrolled nid act) :: (st.t + 1, Ev.yielded nid) :: r.1, r.2)

/-- Outer `do ... while (feedItems.length > 0 && canScrollMore())` loop of
facebookNewsFeed.js `makeIterator`.  After the inner loop, re-query; if
empty, `await delay()` once and re-query again; then evaluate the loop
condition (`&&` short-circuits, so `canScrollMore` runs only on a non-empty
list).  `fuel` bounds the number of outer iterations the model unrolls; the
returned flag is `true` when the generator finished (`done`). -/
def fbOuter (env : Nat → PageMoment) :
    Nat → List Nat → RunSt → List (Nat × Ev) × RunSt × Bool
  | 0, _, st => ([], st, false)
  | fuel + 1, pending, st =>
    let r1 := fbInner env pending st
    let st1 := r1.2
    let q1 := getFeedItems fbQueryMarker env st1.t st1.marked
    let preEvs := if q1.isEmpty then r1.1 ++ [(st1.t, Ev.loadWait)] else r1.1
    let st2 : RunSt := if q1.isEmpty then ⟨st1.t + 1, st1.marked⟩ else st1
    let q := if q1.isEmpty then getFeedItems fbQueryMarker env st2.t st2.marked
             else q1
    if q.isEmpty then (preEvs ++ [(st2.t, Ev.loopCheck false)], st2, true)
    else if (env st2.t).canScroll then
      let r := fbOuter env fuel q st2
      (preEvs ++ [(st2.t, Ev.loopCheck true)] ++ r.1, r.2.1, r.2.2)
    else (preEvs ++ [(st2.t, Ev.loopCheck false)], st2, true)

/-- `makeIterator(xpg)` of facebookNewsFeed.js: build the initial candidate
list at time 0 and enter the `do`-`while`. -/
def makeIteratorRun (env : Nat → PageMoment) (fuel : Nat) :
    List (Nat × Ev) × RunSt × Bool :=
  fbOuter env fuel (getFeedItems fbQueryMarker env 0 []) ⟨0, []⟩

/-- Inner loop of the slideShare.js-bundled `newsFeedIterator`: identical
shape, except `if (window.$WRSTP$) return;` is sampled after each shift and
before the scroll wait.  Third component is `true` when the generator
returned because the stop flag was set. -/
def wrInner (env : Nat → PageMoment) :
    List Nat → RunSt → List (Nat × Ev) × RunSt × Bool
  | [], st => ([], st, false)
  | nid :: rest, st =>
    if (env st.t).stop then ([], st, true)
    else
      let act := scrollIt (offsetAt env st.t nid)
      let r := wrInner env rest ⟨st.t + 2, st.marked ++ [nid]⟩
      ((st.t, Ev.scrolled nid act) :: (st.t + 1, Ev.yielded nid) :: r.1, r.2)

/-- Outer loop of the slideShare.js-bundled `newsFeedIterator`: after the
inner loop `if (window.$WRSTP$) return;` is sampled again, then the
re-query/load-wait block runs, then the flag is sampled a third time before
the loop condition. -/
def wrOuter (env : Nat → PageMoment) :
    Nat → List Nat → RunSt → List (Nat × Ev) × RunSt × Bool
  | 0, _, st => ([], st, false)
  | fuel + 1, pending, st =>
    let r1 := wrInner env pending st
    let st1 := r1.2.1
    if r1.2.2 then (r1.1, st1, true)
    else if (env st1.t).stop then (r1.1, st1, true)
    else
      let q1 := getFeedItems wrMarker env st1.t st1.marked
      let preEvs := if q1.isEmpty then r1.1 ++ [(st1.t, Ev.loadWait)] else r1.1
      let st2 : RunSt := if q1.isEmpty then ⟨st1.t + 1, st1.marked⟩ else st1
      let q := if q1.isEmpty then getFeedItems wrMarker env st2.t st2.marked
               else q1
      if (env st2.t).stop then (preEvs, st2, true)
      else if q.isEmpty then (preEvs ++ [(st2.t, Ev.loopCheck false)], st2, true)
      else if (env st2.t).canScroll then
        let r := wrOuter env fuel q st2
        (preEvs ++ [(st2.t, Ev.loopCheck true)] ++ r.1, r.2.1, r.2.2)
      else (preEvs ++ [(st2.t, Ev.loopCheck false)], st2, true)

/-- `newsFeedIterator(xpg)` of the slideShare.js bundle. -/
def newsFeedIteratorRun (env : Nat → PageMoment) (fuel : Nat) :
    List (Nat × Ev) × RunSt × Bool :=
  wrOuter env fuel (getFeedItems wrMarker env 0 []) ⟨0, []⟩

/-! ## MutationStream (facebookFeed.js bundle)

`predicateStreamItr` awaits, per iteration, a race between `this._getNext()`
(the next mutation batch) and a promise resolved with `null` by a
`setInterval` timer that polls `stopPredicate()` every 1.5 seconds.  The
environment decides each race's winner; the model tracks the observer and
timer resources. -/

/-- Poll cadence of the stop-predicate timer (`setInterval(..., 1500)`). -/
def msPollIntervalMs : Nat := 1500

/-- Winner of one `Promise.race` iteration: a mutation batch arrived first,
or the poll timer saw `stopPredicate()` true first and resolved `null`. -/
inductive RaceWin where
  | mutation (batch : Nat)
  | stopTimer
deriving DecidableEq

/-- Resource state of a `MutationStream`. -/
structure MSState where
  observing : Bool
  loopStream : Bool
  moDisconnects : Nat
  timersStarted : Nat
  timersCleared : Nat
deriving DecidableEq

/-- A fresh `MutationStream` (constructor). -/
def msInit : MSState :=
  ⟨false, false, 0, 0, 0⟩

/-- `observe(elem, config)`: start the underlying observer and set
`this._loopStream = true`. -/
def msObserve (s : MSState) : MSState :=
  { s with observing := true, loopStream := true }

/-- `disconnect()`: `this.mo.disconnect()`, `this._loopStream = false`, and
resolve any pending `_getNext` waiter with `null`. -/
def msDisconnect (s : MSState) : MSState :=
  { s with observing := false, loopStream := false,
           moDisconnects := s.moDisconnects + 1 }

/-- The `while (this._loopStream)` loop of `predicateStreamItr`: each
iteration starts the poll timer, awaits the race, then unconditionally
clears the timer (`if (checkTo) clearInterval(checkTo)`); a `null` race
result breaks out of the loop, and `this.disconnect()` runs after the loop.
An exhausted winner list means the stream is still awaiting a race that
never resolves (third component `false`: not terminated). -/
def predItrGo : List RaceWin → MSState → List Nat × MSState × Bool
  | wins, s =>
    if !s.loopStream then ([], msDisconnect s, true)
    else
      match wins with
      | [] => ([], s, false)
      | w :: rest =>
        let s1 := { s with timersStarted := s.timersStarted + 1 }
        let s2 := { s1 with timersCleared := s1.timersCleared + 1 }
        match w with
        | RaceWin.stopTimer => ([], msDisconnect s2, true)
        | RaceWin.mutation b =>
          let r := predItrGo rest s2
          (b :: r.1, r.2)

/-- `predicateStreamItr(startPredicate, stopPredicate)`: abort (and
disconnect) immediately when the start predicate is false, else run the
race loop. -/
def predicateStreamItr (startP : Bool) (wins : List RaceWin) (s : MSState) :
    List Nat × MSState × Bool :=
  if !startP then ([], msDisconnect s, true) else predItrGo wins s

/-- `predicatedStream(elem, config, startPredicate, stopPredicate)`:
`observe` then `predicateStreamItr`. -/
def predicatedStreamRun (startP : Bool) (wins : List RaceWin) :
    List Nat × MSState × Bool :=
  predicateStreamItr startP wins (msObserve msInit)

/-! ## `waitForAdditionalElemChildren` (facebookFeed.js bundle and
instagramUser.js, identical)

A `setInterval` at `pollRate` whose callback resolves when the parent is
disconnected, when `parentElement.children.length > currentChildCount`, or
when the give-up counter `n` exceeds `max` (`n` incremented after the
checks).  The model returns the 1-based index of the poll tick at which the
promise resolves; `disc t` / `childLen t` are the environment readings at
tick `t`. -/

/-- Default `pollRate` (ms) when `opts` omits it. -/
def wfaecDefaultPollRate : Nat := 1000

/-- Default `max` when `opts` omits it. -/
def wfaecDefaultMax : Nat := 6

/-- One interval callback at tick `t` with give-up counter `n`; recurses to
the next tick when no resolve condition held. -/
def wfaecGo (disc : Nat → Bool) (childLen : Nat → Nat) (cur mx : Nat)
    (n t : Nat) : Nat :=
  if h : (disc t || decide (cur < childLen t) || decide (mx < n)) = true then t
  else wfaecGo disc childLen cur mx (n + 1) (t + 1)
termination_by mx + 1 - n
decreasing_by
  simp only [Bool.or_eq_true, decide_eq_true_eq, not_or] at h
  omega

/-- `waitForAdditionalElemChildren(parentElement, currentChildCount, opts)`:
the tick at which the returned promise resolves (`n` starts at 0, the first
callback fires one `pollRate` after subscription). -/
def waitForAdditionalElemChildren (disc : Nat → Bool) (childLen : Nat → Nat)
    (cur mx : Nat) : Nat :=
  wfaecGo disc childLen cur mx 0 1

/-! ## Concrete page environments used in scenario theorems -/

/-- A feed-item div with clean classes at the given offset. -/
def mkNode (nid : Nat) (off : Int) : FBENode :=
  ⟨nid, off, []⟩

/-- Scenario environment for the re-query claim: 12 feed items (ids 1..12)
up to and including the first re-query at time 24, then 8 more (ids 13..20)
are present from time 25 on; scrolling is always possible and the stop flag
is never set.  Offsets equal the ids (nonzero). -/
def c3Env (t : Nat) : PageMoment :=
  { items :=
      if t ≤ 24 then (List.range 12).map (fun i => mkNode (i + 1) (i + 1))
      else (List.range 20).map (fun i => mkNode (i + 1) (i + 1)),
    canScroll := true,
    stop := false }

/-- Detached-candidate environment: nodes 1 and 5 are present at discovery
time 0; node 5 is removed from the document from time 1 on, i.e. before its
visit (which happens at time 2). -/
def c8Env (t : Nat) : PageMoment :=
  { items := if t = 0 then [mkNode 1 10, mkNode 5 50] else [mkNode 1 10],
    canScroll := true,
    stop := false }

/-- Stop-flag environment: one candidate item, and the `$WRSTP$` global is
already `true` before the run starts and stays set. -/
def c9Env (_t : Nat) : PageMoment :=
  { items := [mkNode 1 5], canScroll := true, stop := true }

/-- A small static page (no stop flag, scrollable): two feed items plus one
zero-offset placeholder, constant over time. -/
def staticPage : PageMoment :=
  { items := [mkNode 1 3, mkNode 2 7, mkNode 3 0], canScroll := true,
    stop := false }

/-- A page with no candidate items at any time. -/
def emptyEnv (_t : Nat) : PageMoment :=
  { items := [], canScroll := false, stop := false }

/-- The static environment over `staticPage`. -/
def staticEnv (_t : Nat) : PageMoment := staticPage

/-! ## Helper lemmas -/

theorem good_not_ignored (s p : List Char) (hp : urlProtocol s = some p)
    (hg : goodScheme p = true) :
    ignoredPres.any (fun q => strStarts q s) = false := by
  by_contra hcon
  rw [Bool.not_eq_false, List.any_eq_true] at hcon
  obtain ⟨q, hq, hstart⟩ := hcon
  rcases (strStarts_iff q s).mp hstart with ⟨r, rfl⟩
  fin_cases hq
  · injection hp with h; subst h; exact absurd hg (by decide)
  · injection hp with h; subst h; exact absurd hg (by decide)
  · injection hp with h; subst h; exact absurd hg (by decide)
  · injection hp with h; subst h; exact absurd hg (by decide)
  · injection hp with h; subst h; exact absurd hg (by decide)
  · exact Option.noConfusion hp
  · exact Option.noConfusion hp
  · injection hp with h; subst h; exact absurd hg (by decide)
  · injection hp with h; subst h; exact absurd hg (by decide)

theorem urlProtocol_nonempty (s : List Char) (p : List Char)
    (hp : urlProtocol s = some p) : s.isEmpty = false := by
  cases s with
  | nil => exact Option.noConfusion hp
  | cons c cs => rfl

theorem shouldIgnore_of_pre_or_unparsable (s : List Char)
    (h : ignoredPres.any (fun q => strStarts q s) = true ∨
         urlProtocol s = none) :
    shouldIgnore s = true := by
  unfold shouldIgnore
  cases hany : ignoredPres.any (fun q => strStarts q s) with
  | true => simp
  | false =>
    rcases h with h | h
    · rw [hany] at h; exact absurd h (by decide)
    · simp [h]

theorem shouldIgnore_of_good (s p : List Char) (hp : urlProtocol s = some p)
    (hg : goodScheme p = true) : shouldIgnore s = false := by
  unfold shouldIgnore
  rw [good_not_ignored s p hp hg]
  simp [hp, hg]

/-! ## Claim theorems -/

/-- C1 — Link filtering: a string that (after the JS trim) matches an ignore
prefix or fails URL parsing leaves the collected set unchanged; a well-formed
`http`/`https` URL not previously in the set appends exactly that one entry;
and on `["https://a.com", "https://a.com", "javascript:void(0)", "not a url"]`
the collector built from the empty set holds exactly `{"https://a.com"}`. -/
theorem claim_C1_link_filtering :
    (∀ (outlinks : List (List Char)) (rawHref : List Char),
      (ignoredPres.any (fun q => strStarts q (trimL rawHref)) = true ∨
       urlProtocol (trimL rawHref) = none) →
      addOutlink outlinks rawHref = outlinks) ∧
    (∀ (outlinks : List (List Char)) (rawHref : List Char) (p : List Char),
      urlProtocol (trimL rawHref) = some p →
      goodScheme p = true →
      outlinks.contains (trimL rawHref) = false →
      addOutlink outlinks rawHref = outlinks ++ [trimL rawHref]) ∧
    addOutLinks []
      ["https://a.com".toList, "https://a.com".toList,
       "javascript:void(0)".toList, "not a url".toList] =
      ["https://a.com".toList] := by
  refine ⟨?_, ?_, by decide⟩
  · intro outlinks raw h
    have hig := shouldIgnore_of_pre_or_unparsable (trimL raw) h
    simp [addOutlink, hig]
  · intro outlinks raw p hp hg hmem
    have hig := shouldIgnore_of_good (trimL raw) p hp hg
    have hne := urlProtocol_nonempty (trimL raw) p hp
    have hmem' : trimL raw ∉ outlinks := by simpa using hmem
    simp [addOutlink, hig, hne, hmem']

/-- Witness for C1: the two universally quantified parts applied at concrete
inputs. -/
theorem claim_C1_witness :
    addOutlink [] "mailto:bob@example.com".toList = [] ∧
    addOutlink [] "  https://b.org/x ".toList = ["https://b.org/x".toList] :=
  ⟨claim_C1_link_filtering.1 [] _ (Or.inl (by decide)),
   claim_C1_link_filtering.2.1 [] _ "https:".toList (by decide) (by decide)
     (by decide)⟩

/-- C2 — Filtering order (code_bug evidence).  In `OutLinkCollector.shouldIgnore`
the ignore-prefix list is consulted first and the URL parser is not invoked
when a prefix matches (first conjunct: `"javascript:void(0)"` is ignored with
no parse), and a parse failure is treated as ignore (third conjunct).  But in
the free-standing `shouldIgnoreLink` of facebookNewsFeed.js/instagramUser.js
the prefix loop iterates zero times (`let i = ignored.length` measures the
boolean `false`), so the URL parser IS invoked even for `"javascript:void(0)"`
(second conjunct), contradicting the claimed parse-only-when-no-prefix-matched
ordering. -/
theorem claim_C2_filtering_order :
    shouldIgnoreInstr "javascript:void(0)".toList = (true, false) ∧
    shouldIgnoreLinkInstr "javascript:void(0)".toList = (true, true) ∧
    shouldIgnoreInstr "not a url".toList = (true, true) ∧
    shouldIgnoreLinkInstr "not a url".toList = (true, true) := by
  decide

/-- C7 — Scroll-to-offset fallback: with `offsetTop` exactly zero the
behavior scrolls the node into the viewport center; with nonzero `offsetTop`
it scrolls the window to that absolute offset — in both the
facebookNewsFeed.js `scrollToElemOffset` and the bundle `scrollIt`. -/
theorem claim_C7_scroll_fallback :
    (∀ off : Int,
      (off = 0 → scrollToElemOffset off = ScrollAction.intoViewCenter) ∧
      (off ≠ 0 → scrollToElemOffset off = ScrollAction.toOffset off)) ∧
    (∀ off : Int,
      (off = 0 → scrollIt off = ScrollAction.intoViewCenter) ∧
      (off ≠ 0 → scrollIt off = ScrollAction.toOffset off)) := by
  refine ⟨fun off => ⟨fun h => ?_, fun h => ?_⟩, fun off => ⟨fun h => ?_, fun h => ?_⟩⟩
  · simp [scrollToElemOffset, h]
  · simp [scrollToElemOffset, h]
  · simp [scrollIt, h]
  · simp [scrollIt, h]

/-- Witness for C7 at offsets 0 and 7. -/
theorem claim_C7_witness :
    scrollToElemOffset 0 = ScrollAction.intoViewCenter ∧
    scrollToElemOffset 7 = ScrollAction.toOffset 7 ∧
    scrollIt 0 = ScrollAction.intoViewCenter ∧
    scrollIt 7 = ScrollAction.toOffset 7 :=
  ⟨(claim_C7_scroll_fallback.1 0).1 rfl,
   (claim_C7_scroll_fallback.1 7).2 (by decide),
   (claim_C7_scroll_fallback.2 0).1 rfl,
   (claim_C7_scroll_fallback.2 7).2 (by decide)⟩

theorem fbOuter_double_empty (env : Nat → PageMoment) (fuel : Nat)
    (pending : List Nat) (st : RunSt)
    (h1 : getFeedItems fbQueryMarker env (fbInner env pending st).2.t
        (fbInner env pending st).2.marked = [])
    (h2 : getFeedItems fbQueryMarker env ((fbInner env pending st).2.t + 1)
        (fbInner env pending st).2.marked = []) :
    fbOuter env (fuel + 1) pending st =
      ((fbInner env pending st).1 ++
         [((fbInner env pending st).2.t, Ev.loadWait),
          ((fbInner env pending st).2.t + 1, Ev.loopCheck false)],
       ⟨(fbInner env pending st).2.t + 1, (fbInner env pending st).2.marked⟩,
       true) := by
  simp only [fbOuter, h1, List.isEmpty_nil, if_true, h2]
  simp [List.append_assoc]

theorem fbOuter_empty_then_found (env : Nat → PageMoment) (fuel : Nat)
    (pending : List Nat) (st : RunSt)
    (h1 : getFeedItems fbQueryMarker env (fbInner env pending st).2.t
        (fbInner env pending st).2.marked = [])
    (h2 : getFeedItems fbQueryMarker env ((fbInner env pending st).2.t + 1)
        (fbInner env pending st).2.marked ≠ [])
    (h3 : (env ((fbInner env pending st).2.t + 1)).canScroll = true) :
    fbOuter env (fuel + 1) pending st =
      ((fbInner env pending st).1 ++
         [((fbInner env pending st).2.t, Ev.loadWait),
          ((fbInner env pending st).2.t + 1, Ev.loopCheck true)] ++
         (fbOuter env fuel
            (getFeedItems fbQueryMarker env ((fbInner env pending st).2.t + 1)
              (fbInner env pending st).2.marked)
            ⟨(fbInner env pending st).2.t + 1,
             (fbInner env pending st).2.marked⟩).1,
       (fbOuter env fuel
          (getFeedItems fbQueryMarker env ((fbInner env pending st).2.t + 1)
            (fbInner env pending st).2.marked)
          ⟨(fbInner env pending st).2.t + 1,
           (fbInner env pending st).2.marked⟩).2.1,
       (fbOuter env fuel
          (getFeedItems fbQueryMarker env ((fbInner env pending st).2.t + 1)
            (fbInner env pending st).2.marked)
          ⟨(fbInner env pending st).2.t + 1,
           (fbInner env pending st).2.marked⟩).2.2) := by
  simp only [fbOuter, h1, List.isEmpty_nil, if_true]
  have h2' : (getFeedItems fbQueryMarker env ((fbInner env pending st).2.t + 1)
      (fbInner env pending st).2.marked).isEmpty = false := by
    cases hq : getFeedItems fbQueryMarker env ((fbInner env pending st).2.t + 1)
      (fbInner env pending st).2.marked with
    | nil => exact absurd hq h2
    | cons a l => rfl
  rw [h2', h3]
  simp

/-- C3 — Re-query behavior of facebookNewsFeed.js `makeIterator`.
First two conjuncts, for every environment and engine state: once the
pending list is exhausted the engine re-queries, and if that re-query is
empty it takes exactly one load-wait delay and re-queries once more — the
second empty re-query decides termination (first conjunct), while a
non-empty second re-query continues the loop with exactly those candidates
after the single wait (second conjunct).  Third conjunct: in the concrete
12-then-8 environment the engine emits exactly the claimed trace — 12
yields, one load-wait, the loop check, the 8 new yields (20 yields in
total) before the loop condition is re-checked — and terminates. -/
theorem claim_C3_requery :
    (∀ (env : Nat → PageMoment) (fuel : Nat) (pending : List Nat) (st : RunSt),
      getFeedItems fbQueryMarker env (fbInner env pending st).2.t
          (fbInner env pending st).2.marked = [] →
      getFeedItems fbQueryMarker env ((fbInner env pending st).2.t + 1)
          (fbInner env pending st).2.marked = [] →
      fbOuter env (fuel + 1) pending st =
        ((fbInner env pending st).1 ++
           [((fbInner env pending st).2.t, Ev.loadWait),
            ((fbInner env pending st).2.t + 1, Ev.loopCheck false)],
         ⟨(fbInner env pending st).2.t + 1, (fbInner env pending st).2.marked⟩,
         true)) ∧
    (∀ (env : Nat → PageMoment) (fuel : Nat) (pending : List Nat) (st : RunSt),
      getFeedItems fbQueryMarker env (fbInner env pending st).2.t
          (fbInner env pending st).2.marked = [] →
      getFeedItems fbQueryMarker env ((fbInner env pending st).2.t + 1)
          (fbInner env pending st).2.marked ≠ [] →
      (env ((fbInner env pending st).2.t + 1)).canScroll = true →
      fbOuter env (fuel + 1) pending st =
        ((fbInner env pending st).1 ++
           [((fbInner env pending st).2.t, Ev.loadWait),
            ((fbInner env pending st).2.t + 1, Ev.loopCheck true)] ++
           (fbOuter env fuel
              (getFeedItems fbQueryMarker env ((fbInner env pending st).2.t + 1)
                (fbInner env pending st).2.marked)
              ⟨(fbInner env pending st).2.t + 1,
               (fbInner env pending st).2.marked⟩).1,
         (fbOuter env fuel
            (getFeedItems fbQueryMarker env ((fbInner env pending st).2.t + 1)
              (fbInner env pending st).2.marked)
            ⟨(fbInner env pending st).2.t + 1,
             (fbInner env pending st).2.marked⟩).2.1,
         (fbOuter env fuel
            (getFeedItems fbQueryMarker env ((fbInner env pending st).2.t + 1)
              (fbInner env pending st).2.marked)
            ⟨(fbInner env pending st).2.t + 1,
             (fbInner env pending st).2.marked⟩).2.2)) ∧
    ((makeIteratorRun c3Env 3).1 =
      ((List.range 12).flatMap (fun i =>
        [(2 * i, Ev.scrolled (i + 1) (ScrollAction.toOffset (i + 1))),
         (2 * i + 1, Ev.yielded (i + 1))])) ++
      [(24, Ev.loadWait), (25, Ev.loopCheck true)] ++
      ((List.range 8).flatMap (fun j =>
        [(25 + 2 * j, Ev.scrolled (j + 13) (ScrollAction.toOffset (j + 13))),
         (26 + 2 * j, Ev.yielded (j + 13))])) ++
      [(41, Ev.loadWait), (42, Ev.loopCheck false)] ∧
     (makeIteratorRun c3Env 3).2.2 = true) := by
  exact ⟨fbOuter_double_empty, fbOuter_empty_then_found, by decide, by decide⟩

/-- Witness for C3: the empty page run takes one load-wait and terminates. -/
theorem claim_C3_witness :
    fbOuter emptyEnv 1 [] ⟨0, []⟩ =
      ([(0, Ev.loadWait), (1, Ev.loopCheck false)], ⟨1, []⟩, true) := by
  simpa using claim_C3_requery.1 emptyEnv 0 [] ⟨0, []⟩ (by decide) (by decide)

theorem yieldIds_append (a b : List (Nat × Ev)) :
    yieldIds (a ++ b) = yieldIds a ++ yieldIds b := by
  simp [yieldIds, List.filterMap_append]

theorem fbInner_spec (env : Nat → PageMoment) :
    ∀ (pending : List Nat) (st : RunSt),
      yieldIds (fbInner env pending st).1 = pending ∧
      (fbInner env pending st).2.marked = st.marked ++ pending ∧
      (fbInner env pending st).2.t = st.t + 2 * pending.length := by
  intro pending
  induction pending with
  | nil => intro st; simp [fbInner, yieldIds]
  | cons nid rest ih =>
    intro st
    obtain ⟨h1, h2, h3⟩ := ih ⟨st.t + 2, st.marked ++ [nid]⟩
    refine ⟨?_, ?_, ?_⟩
    · simp only [fbInner, yieldIds, List.filterMap_cons]
      simp only [yieldIds] at h1
      simp [h1]
    · simp only [fbInner]
      rw [h2]
      show (st.marked ++ [nid]) ++ rest = st.marked ++ nid :: rest
      simp
    · simp only [fbInner]
      rw [h3]
      show (st.t + 2) + 2 * rest.length = st.t + 2 * (rest.length + 1)
      omega

theorem getFeedItems_excludes_marked (marker : List Char)
    (env : Nat → PageMoment) (t : Nat) (marked : List Nat) (nid : Nat)
    (h : marked.contains nid = true) :
    nid ∉ getFeedItems marker env t marked := by
  unfold getFeedItems
  intro hmem
  rw [List.mem_map] at hmem
  obtain ⟨n, hn, hnid⟩ := hmem
  rw [List.mem_filter] at hn
  obtain ⟨_, hcond⟩ := hn
  rw [Bool.and_eq_true] at hcond
  have hc : containsSeq marker (effClassAttr marker marked n) = true := by
    unfold effClassAttr
    rw [hnid, h, if_pos rfl]
    have : n.classAttr ++ (' ' :: marker) = (n.classAttr ++ [' ']) ++ marker := by
      simp
    rw [this]
    exact containsSeq_of_suffix marker (n.classAttr ++ [' '])
  rw [hc] at hcond
  exact absurd hcond.1 (by decide)

theorem getFeedItems_nodup (marker : List Char) (env : Nat → PageMoment)
    (t : Nat) (marked : List Nat)
    (h : ((env t).items.map (fun n => n.nid)).Nodup) :
    (getFeedItems marker env t marked).Nodup := by
  unfold getFeedItems
  exact h.sublist (List.Sublist.map _ (List.filter_sublist _))

theorem getFeedItems_unmarked (marker : List Char) (env : Nat → PageMoment)
    (t : Nat) (marked : List Nat) (nid : Nat)
    (h : nid ∈ getFeedItems marker env t marked) :
    marked.contains nid = false := by
  cases hc : marked.contains nid with
  | false => rfl
  | true => exact absurd h (getFeedItems_excludes_marked marker env t marked nid hc)

theorem static_requery_empty (P : PageMoment) (t : Nat) :
    getFeedItems fbQueryMarker (fun _ => P) t
      (getFeedItems fbQueryMarker (fun _ => P) 0 []) = [] := by
  rw [List.eq_nil_iff_forall_not_mem]
  intro nid hmem
  have hunm := getFeedItems_unmarked fbQueryMarker (fun _ => P) t _ nid hmem
  unfold getFeedItems at hmem
  rw [List.mem_map] at hmem
  obtain ⟨n, hn, hnid⟩ := hmem
  rw [List.mem_filter] at hn
  obtain ⟨hmemP, hcond⟩ := hn
  have heff : effClassAttr fbQueryMarker
      (getFeedItems fbQueryMarker (fun _ => P) 0 []) n = n.classAttr := by
    unfold effClassAttr
    rw [hnid, hunm]
    simp
  have hin0 : nid ∈ getFeedItems fbQueryMarker (fun _ => P) 0 [] := by
    unfold getFeedItems
    rw [List.mem_map]
    refine ⟨n, ?_, hnid⟩
    rw [List.mem_filter]
    refine ⟨hmemP, ?_⟩
    have heff0 : effClassAttr fbQueryMarker [] n = n.classAttr := by
      unfold effClassAttr; simp
    rw [heff0, ← heff]
    exact hcond
  have : nid ∉ getFeedItems fbQueryMarker (fun _ => P) 0 [] := by simpa using hunm
  exact this hin0

/-- C4 — Termination on a static page: on any time-constant page `P` the
facebookNewsFeed.js engine finishes (`done = true`) with outer-loop fuel 1,
yields exactly the initial candidate set, and the number of external
`advance()` calls (one per yield plus the final `done` observation) is
bounded by the number of feed items plus one. -/
theorem claim_C4_termination (P : PageMoment) :
    (makeIteratorRun (fun _ => P) 1).2.2 = true ∧
    yieldIds (makeIteratorRun (fun _ => P) 1).1 =
      getFeedItems fbQueryMarker (fun _ => P) 0 [] ∧
    advanceCalls (makeIteratorRun (fun _ => P) 1).1 ≤ P.items.length + 1 := by
  have hmarked :
      (fbInner (fun _ => P) (getFeedItems fbQueryMarker (fun _ => P) 0 [])
        ⟨0, []⟩).2.marked = getFeedItems fbQueryMarker (fun _ => P) 0 [] := by
    obtain ⟨_, hm, _⟩ :=
      fbInner_spec (fun _ => P) (getFeedItems fbQueryMarker (fun _ => P) 0 [])
        ⟨0, []⟩
    simpa using hm
  have hq1 : getFeedItems fbQueryMarker (fun _ => P)
      (fbInner (fun _ => P) (getFeedItems fbQueryMarker (fun _ => P) 0 [])
        ⟨0, []⟩).2.t
      (fbInner (fun _ => P) (getFeedItems fbQueryMarker (fun _ => P) 0 [])
        ⟨0, []⟩).2.marked = [] := by
    rw [hmarked]; exact static_requery_empty P _
  have hq2 : getFeedItems fbQueryMarker (fun _ => P)
      ((fbInner (fun _ => P) (getFeedItems fbQueryMarker (fun _ => P) 0 [])
        ⟨0, []⟩).2.t + 1)
      (fbInner (fun _ => P) (getFeedItems fbQueryMarker (fun _ => P) 0 [])
        ⟨0, []⟩).2.marked = [] := by
    rw [hmarked]; exact static_requery_empty P _
  have hrun := fbOuter_double_empty (fun _ => P) 0
    (getFeedItems fbQueryMarker (fun _ => P) 0 []) ⟨0, []⟩ hq1 hq2
  have htrace : makeIteratorRun (fun _ => P) 1 =
      ((fbInner (fun _ => P) (getFeedItems fbQueryMarker (fun _ => P) 0 [])
          ⟨0, []⟩).1 ++
        [((fbInner (fun _ => P) (getFeedItems fbQueryMarker (fun _ => P) 0 [])
            ⟨0, []⟩).2.t, Ev.loadWait),
         ((fbInner (fun _ => P) (getFeedItems fbQueryMarker (fun _ => P) 0 [])
            ⟨0, []⟩).2.t + 1, Ev.loopCheck false)],
       ⟨(fbInner (fun _ => P) (getFeedItems fbQueryMarker (fun _ => P) 0 [])
          ⟨0, []⟩).2.t + 1,
        (fbInner (fun _ => P) (getFeedItems fbQueryMarker (fun _ => P) 0 [])
          ⟨0, []⟩).2.marked⟩, true) := hrun
  obtain ⟨hy, _, _⟩ :=
    fbInner_spec (fun _ => P) (getFeedItems fbQueryMarker (fun _ => P) 0 [])
      ⟨0, []⟩
  have hyields : yieldIds (makeIteratorRun (fun _ => P) 1).1 =
      getFeedItems fbQueryMarker (fun _ => P) 0 [] := by
    rw [htrace]
    simp only [yieldIds_append, hy]
    simp [yieldIds]
  refine ⟨by rw [htrace], hyields, ?_⟩
  rw [advanceCalls, hyields]
  have : (getFeedItems fbQueryMarker (fun _ => P) 0 []).length ≤
      P.items.length := by
    unfold getFeedItems
    rw [List.length_map]
    exact List.length_filter_le _ _
  omega

theorem fbOuter_empty_found_noscroll (env : Nat → PageMoment) (fuel : Nat)
    (pending : List Nat) (st : RunSt)
    (h1 : getFeedItems fbQueryMarker env (fbInner env pending st).2.t
        (fbInner env pending st).2.marked = [])
    (h2 : getFeedItems fbQueryMarker env ((fbInner env pending st).2.t + 1)
        (fbInner env pending st).2.marked ≠ [])
    (h3 : (env ((fbInner env pending st).2.t + 1)).canScroll = false) :
    fbOuter env (fuel + 1) pending st =
      ((fbInner env pending st).1 ++
         [((fbInner env pending st).2.t, Ev.loadWait),
          ((fbInner env pending st).2.t + 1, Ev.loopCheck false)],
       ⟨(fbInner env pending st).2.t + 1, (fbInner env pending st).2.marked⟩,
       true) := by
  simp only [fbOuter, h1, List.isEmpty_nil, if_true]
  have h2' : (getFeedItems fbQueryMarker env ((fbInner env pending st).2.t + 1)
      (fbInner env pending st).2.marked).isEmpty = false := by
    cases hq : getFeedItems fbQueryMarker env ((fbInner env pending st).2.t + 1)
      (fbInner env pending st).2.marked with
    | nil => exact absurd hq h2
    | cons a l => rfl
  rw [h2', h3]
  simp [List.append_assoc]

theorem fbOuter_found (env : Nat → PageMoment) (fuel : Nat)
    (pending : List Nat) (st : RunSt)
    (h1 : getFeedItems fbQueryMarker env (fbInner env pending st).2.t
        (fbInner env pending st).2.marked ≠ [])
    (h3 : (env (fbInner env pending st).2.t).canScroll = true) :
    fbOuter env (fuel + 1) pending st =
      ((fbInner env pending st).1 ++
         [((fbInner env pending st).2.t, Ev.loopCheck true)] ++
         (fbOuter env fuel
            (getFeedItems fbQueryMarker env (fbInner env pending st).2.t
              (fbInner env pending st).2.marked)
            (fbInner env pending st).2).1,
       (fbOuter env fuel
          (getFeedItems fbQueryMarker env (fbInner env pending st).2.t
            (fbInner env pending st).2.marked)
          (fbInner env pending st).2).2.1,
       (fbOuter env fuel
          (getFeedItems fbQueryMarker env (fbInner env pending st).2.t
            (fbInner env pending st).2.marked)
          (fbInner env pending st).2).2.2) := by
  have h1' : (getFeedItems fbQueryMarker env (fbInner env pending st).2.t
      (fbInner env pending st).2.marked).isEmpty = false := by
    cases hq : getFeedItems fbQueryMarker env (fbInner env pending st).2.t
      (fbInner env pending st).2.marked with
    | nil => exact absurd hq h1
    | cons a l => rfl
  simp only [fbOuter, h1', Bool.false_eq_true, if_false, h3, if_true]

theorem fbOuter_found_noscroll (env : Nat → PageMoment) (fuel : Nat)
    (pending : List Nat) (st : RunSt)
    (h1 : getFeedItems fbQueryMarker env (fbInner env pending st).2.t
        (fbInner env pending st).2.marked ≠ [])
    (h3 : (env (fbInner env pending st).2.t).canScroll = false) :
    fbOuter env (fuel + 1) pending st =
      ((fbInner env pending st).1 ++
         [((fbInner env pending st).2.t, Ev.loopCheck false)],
       (fbInner env pending st).2, true) := by
  have h1' : (getFeedItems fbQueryMarker env (fbInner env pending st).2.t
      (fbInner env pending st).2.marked).isEmpty = false := by
    cases hq : getFeedItems fbQueryMarker env (fbInner env pending st).2.t
      (fbInner env pending st).2.marked with
    | nil => exact absurd hq h1
    | cons a l => rfl
  simp only [fbOuter, h1', Bool.false_eq_true, if_false, h3]

theorem nodup_of_append_parts (a b : List Nat) (h : (a ++ b).Nodup) :
    a.Nodup ∧ b.Nodup ∧ a.Disjoint b := by
  rw [List.nodup_append] at h
  exact h

theorem nodup_state_query (env : Nat → PageMoment)
    (hN : ∀ t, ((env t).items.map (fun n => n.nid)).Nodup)
    (marked : List Nat) (t : Nat) (hmk : marked.Nodup) :
    (marked ++ getFeedItems fbQueryMarker env t marked).Nodup := by
  rw [List.nodup_append]
  refine ⟨hmk, getFeedItems_nodup _ env t marked (hN t), ?_⟩
  intro a ha ha2
  have := getFeedItems_unmarked fbQueryMarker env t marked a ha2
  have : a ∉ marked := by simpa using this
  exact this ha

theorem fbOuter_marked_spec (env : Nat → PageMoment)
    (hN : ∀ t, ((env t).items.map (fun n => n.nid)).Nodup) :
    ∀ (fuel : Nat) (pending : List Nat) (st : RunSt),
      (st.marked ++ pending).Nodup →
      ((fbOuter env fuel pending st).2.1.marked =
         st.marked ++ yieldIds (fbOuter env fuel pending st).1 ∧
       (fbOuter env fuel pending st).2.1.marked.Nodup) := by
  intro fuel
  induction fuel with
  | zero =>
    intro pending st h
    refine ⟨by simp [fbOuter, yieldIds], ?_⟩
    simpa [fbOuter] using (nodup_of_append_parts _ _ h).1
  | succ fuel ih =>
    intro pending st h
    obtain ⟨hy, hm, _⟩ := fbInner_spec env pending st
    have hnd1 : (fbInner env pending st).2.marked.Nodup := by rw [hm]; exact h
    by_cases hq1 : getFeedItems fbQueryMarker env (fbInner env pending st).2.t
        (fbInner env pending st).2.marked = []
    · by_cases hq2 : getFeedItems fbQueryMarker env
          ((fbInner env pending st).2.t + 1) (fbInner env pending st).2.marked = []
      · rw [fbOuter_double_empty env fuel pending st hq1 hq2]
        refine ⟨?_, ?_⟩
        · simp only [yieldIds_append, hy, hm]
          simp [yieldIds]
        · simpa using hnd1
      · by_cases hcs : (env ((fbInner env pending st).2.t + 1)).canScroll = true
        · rw [fbOuter_empty_then_found env fuel pending st hq1 hq2 hcs]
          have hpre : ((⟨(fbInner env pending st).2.t + 1,
              (fbInner env pending st).2.marked⟩ : RunSt).marked ++
              getFeedItems fbQueryMarker env ((fbInner env pending st).2.t + 1)
                (fbInner env pending st).2.marked).Nodup :=
            nodup_state_query env hN _ _ hnd1
          obtain ⟨ihe, ihn⟩ := ih _ _ hpre
          refine ⟨?_, ihn⟩
          rw [ihe]
          simp only [yieldIds_append, hy, hm]
          simp [yieldIds, List.append_assoc]
        · have hcs' : (env ((fbInner env pending st).2.t + 1)).canScroll = false := by
            simpa using hcs
          rw [fbOuter_empty_found_noscroll env fuel pending st hq1 hq2 hcs']
          refine ⟨?_, by simpa using hnd1⟩
          simp only [yieldIds_append, hy, hm]
          simp [yieldIds]
    · by_cases hcs : (env (fbInner env pending st).2.t).canScroll = true
      · rw [fbOuter_found env fuel pending st hq1 hcs]
        have hpre : ((fbInner env pending st).2.marked ++
            getFeedItems fbQueryMarker env (fbInner env pending st).2.t
              (fbInner env pending st).2.marked).Nodup :=
          nodup_state_query env hN _ _ hnd1
        obtain ⟨ihe, ihn⟩ := ih _ _ hpre
        refine ⟨?_, ihn⟩
        rw [ihe]
        simp only [yieldIds_append, hy, hm]
        simp [yieldIds, List.append_assoc]
      · have hcs' : (env (fbInner env pending st).2.t).canScroll = false := by
          simpa using hcs
        rw [fbOuter_found_noscroll env fuel pending st hq1 hcs']
        refine ⟨?_, by simpa using hnd1⟩
        simp only [yieldIds_append, hy, hm]
        simp [yieldIds]

/-- C5 — Visited-marker invariant: a node whose id has been marked (its class
attribute got the `wrvistited` token appended) is never returned by any later
candidate query of the run (first conjunct, for every environment, time and
marked set); consequently, over any environment whose snapshots list each
node id at most once, a full run never yields the same node twice (second
conjunct). -/
theorem claim_C5_visited_marker :
    (∀ (env : Nat → PageMoment) (t : Nat) (marked : List Nat) (nid : Nat),
      marked.contains nid = true →
      nid ∉ getFeedItems fbQueryMarker env t marked) ∧
    (∀ (env : Nat → PageMoment) (fuel : Nat),
      (∀ t, ((env t).items.map (fun n => n.nid)).Nodup) →
      (yieldIds (makeIteratorRun env fuel).1).Nodup) := by
  refine ⟨getFeedItems_excludes_marked fbQueryMarker, ?_⟩
  intro env fuel hN
  have hpre : (([] : List Nat) ++ getFeedItems fbQueryMarker env 0 []).Nodup := by
    simpa using getFeedItems_nodup fbQueryMarker env 0 [] (hN 0)
  obtain ⟨he, hn⟩ := fbOuter_marked_spec env hN fuel
    (getFeedItems fbQueryMarker env 0 []) ⟨0, []⟩ hpre
  rw [he] at hn
  simpa [makeIteratorRun] using hn

/-- Witness for C5 on the concrete static page. -/
theorem claim_C5_witness :
    7 ∉ getFeedItems fbQueryMarker staticEnv 0 [7] ∧
    (yieldIds (makeIteratorRun staticEnv 1).1).Nodup :=
  ⟨claim_C5_visited_marker.1 staticEnv 0 [7] 7 (by decide),
   claim_C5_visited_marker.2 staticEnv 1 (fun _ => by show ((staticPage).items.map (fun n => n.nid)).Nodup; decide)⟩

/-- C8 counterexample — the claim says a candidate detached between
discovery and visit is "treated as already handled / skipped".  In `c8Env`
node 5 is present at discovery (time 0) and detached by its visit (time 2),
yet the engine still performs a scroll step for it (the into-view-center
fallback, since a detached node reports `offsetTop` 0) and yields it: it is
not skipped. -/
theorem claim_C8_counterexample :
    ((c8Env 0).items.map (fun n => n.nid)).contains 5 = true ∧
    ((c8Env 2).items.map (fun n => n.nid)).contains 5 = false ∧
    (2, Ev.scrolled 5 ScrollAction.intoViewCenter) ∈
      (makeIteratorRun c8Env 1).1 ∧
    5 ∈ yieldIds (makeIteratorRun c8Env 1).1 := by
  refine ⟨by decide, by decide, by decide, by decide⟩

/-- C8 amended — Detached-candidate tolerance, as the code actually behaves:
for every environment and state, when the next pending candidate is detached
(`find?` misses it, so `offsetTop` reads 0) the step still completes without
faulting: the engine scrolls via the into-view-center fallback, marks and
yields the node, and then processes the rest of the pending list exactly as
usual. -/
theorem claim_C8_detached (env : Nat → PageMoment) (st : RunSt) (nid : Nat)
    (rest : List Nat)
    (h : (env st.t).items.find? (fun n => n.nid == nid) = none) :
    fbInner env (nid :: rest) st =
      ((st.t, Ev.scrolled nid ScrollAction.intoViewCenter) ::
         (st.t + 1, Ev.yielded nid) ::
         (fbInner env rest ⟨st.t + 2, st.marked ++ [nid]⟩).1,
       (fbInner env rest ⟨st.t + 2, st.marked ++ [nid]⟩).2) := by
  simp only [fbInner, offsetAt, h, scrollToElemOffset]
  simp

/-- Witness for C8: node 5 in `c8Env` at its visit time. -/
theorem claim_C8_witness :
    fbInner c8Env [5] ⟨2, [1]⟩ =
      ([(2, Ev.scrolled 5 ScrollAction.intoViewCenter), (3, Ev.yielded 5)],
       ⟨4, [1, 5]⟩) := by
  rw [claim_C8_detached c8Env ⟨2, [1]⟩ 5 [] (by decide)]
  rfl

theorem wrInner_wait_stop_false (env : Nat → PageMoment) :
    ∀ (pending : List Nat) (st : RunSt) (t : Nat) (ev : Ev),
      (t, ev) ∈ (wrInner env pending st).1 → isWaitEv ev = true →
      (env t).stop = false := by
  intro pending
  induction pending with
  | nil => intro st t ev hmem _; simp [wrInner] at hmem
  | cons nid rest ih =>
    intro st t ev hmem hw
    by_cases hstop : (env st.t).stop = true
    · simp only [wrInner, hstop, if_true] at hmem
      simp at hmem
    · have hstop' : (env st.t).stop = false := by simpa using hstop
      simp only [wrInner, hstop', Bool.false_eq_true, if_false] at hmem
      rw [List.mem_cons, List.mem_cons] at hmem
      rcases hmem with h1 | h2 | h3
      · injection h1 with ht _
        subst ht
        exact hstop'
      · injection h2 with ht hev
        rw [hev] at hw
        simp [isWaitEv] at hw
      · exact ih _ t ev h3 hw

theorem wrOuter_wait_stop_false (env : Nat → PageMoment) :
    ∀ (fuel : Nat) (pending : List Nat) (st : RunSt) (t : Nat) (ev : Ev),
      (t, ev) ∈ (wrOuter env fuel pending st).1 → isWaitEv ev = true →
      (env t).stop = false := by
  intro fuel
  induction fuel with
  | zero => intro pending st t ev hmem _; simp [wrOuter] at hmem
  | succ fuel ih =>
    intro pending st t ev hmem hw
    by_cases hA : (wrInner env pending st).2.2 = true
    · simp only [wrOuter, hA, if_true] at hmem
      exact wrInner_wait_stop_false env pending st t ev hmem hw
    · have hA' : (wrInner env pending st).2.2 = false := by simpa using hA
      by_cases hB : (env (wrInner env pending st).2.1.t).stop = true
      · simp only [wrOuter, hA', Bool.false_eq_true, if_false, hB, if_true]
          at hmem
        exact wrInner_wait_stop_false env pending st t ev hmem hw
      · have hB' : (env (wrInner env pending st).2.1.t).stop = false := by
          simpa using hB
        simp only [wrOuter, hA', Bool.false_eq_true, if_false, hB'] at hmem
        -- helper facts for the load-wait event
        have hload : ∀ hm : (t, ev) ∈
            ((wrInner env pending st).1 ++
              [((wrInner env pending st).2.1.t, Ev.loadWait)]),
            (env t).stop = false := by
          intro hm
          rw [List.mem_append] at hm
          rcases hm with hm | hm
          · exact wrInner_wait_stop_false env pending st t ev hm hw
          · rw [List.mem_singleton] at hm
            injection hm with ht _
            subst ht
            exact hB'
        by_cases hq1 : (getFeedItems wrMarker env (wrInner env pending st).2.1.t
            (wrInner env pending st).2.1.marked).isEmpty = true
        · simp only [hq1, if_true] at hmem
          by_cases hC : (env ((wrInner env pending st).2.1.t + 1)).stop = true
          · simp only [hC, if_true] at hmem
            exact hload hmem
          · have hC' : (env ((wrInner env pending st).2.1.t + 1)).stop = false := by
              simpa using hC
            simp only [hC', Bool.false_eq_true, if_false] at hmem
            by_cases hq2 : (getFeedItems wrMarker env
                ((wrInner env pending st).2.1.t + 1)
                (wrInner env pending st).2.1.marked).isEmpty = true
            · simp only [hq2, if_true] at hmem
              rw [List.mem_append] at hmem
              rcases hmem with hm | hm
              · exact hload hm
              · rw [List.mem_singleton] at hm
                injection hm with _ hev
                rw [hev] at hw
                simp [isWaitEv] at hw
            · have hq2' : (getFeedItems wrMarker env
                  ((wrInner env pending st).2.1.t + 1)
                  (wrInner env pending st).2.1.marked).isEmpty = false := by
                simpa using hq2
              simp only [hq2', Bool.false_eq_true, if_false] at hmem
              by_cases hcs : (env ((wrInner env pending st).2.1.t + 1)).canScroll
                  = true
              · simp only [hcs, if_true] at hmem
                rw [List.mem_append, List.mem_append] at hmem
                rcases hmem with (hm | hm) | hm
                · exact hload hm
                · rw [List.mem_singleton] at hm
                  injection hm with _ hev
                  rw [hev] at hw
                  simp [isWaitEv] at hw
                · exact ih _ _ t ev hm hw
              · have hcs' : (env ((wrInner env pending st).2.1.t + 1)).canScroll
                    = false := by simpa using hcs
                simp only [hcs', Bool.false_eq_true, if_false] at hmem
                rw [List.mem_append] at hmem
                rcases hmem with hm | hm
                · exact hload hm
                · rw [List.mem_singleton] at hm
                  injection hm with _ hev
                  rw [hev] at hw
                  simp [isWaitEv] at hw
        · have hq1' : (getFeedItems wrMarker env (wrInner env pending st).2.1.t
              (wrInner env pending st).2.1.marked).isEmpty = false := by
            simpa using hq1
          simp only [hq1', Bool.false_eq_true, if_false] at hmem
          by_cases hC : (env (wrInner env pending st).2.1.t).stop = true
          · simp only [hC, if_true] at hmem
            exact wrInner_wait_stop_false env pending st t ev hmem hw
          · have hC' : (env (wrInner env pending st).2.1.t).stop = false := by
              simpa using hC
            simp only [hC', Bool.false_eq_true, if_false] at hmem
            by_cases hcs : (env (wrInner env pending st).2.1.t).canScroll = true
            · simp only [hcs, if_true] at hmem
              rw [List.mem_append, List.mem_append] at hmem
              rcases hmem with (hm | hm) | hm
              · exact wrInner_wait_stop_false env pending st t ev hm hw
              · rw [List.mem_singleton] at hm
                injection hm with _ hev
                rw [hev] at hw
                simp [isWaitEv] at hw
              · exact ih _ _ t ev hm hw
            · have hcs' : (env (wrInner env pending st).2.1.t).canScroll = false := by
                simpa using hcs
              simp only [hcs', Bool.false_eq_true, if_false] at hmem
              rw [List.mem_append] at hmem
              rcases hmem with hm | hm
              · exact wrInner_wait_stop_false env pending st t ev hm hw
              · rw [List.mem_singleton] at hm
                injection hm with _ hev
                rw [hev] at hw
                simp [isWaitEv] at hw

theorem wrOuter_stop_exits (env : Nat → PageMoment) (fuel : Nat)
    (pending : List Nat) (st : RunSt) (h : (env st.t).stop = true) :
    wrOuter env (fuel + 1) pending st = ([], st, true) := by
  cases pending with
  | nil => simp [wrOuter, wrInner, h]
  | cons nid rest => simp [wrOuter, wrInner, h]

/-- C9 counterexample — the cited facebookNewsFeed.js `makeIterator` never
samples any stop flag: in `c9Env` the `$WRSTP$`-style global is `true` from
the start, yet the run still performs two waits (a scroll settle delay and a
load-wait), yields its item, and completes the full traversal. -/
theorem claim_C9_counterexample :
    (c9Env 0).stop = true ∧
    (makeIteratorRun c9Env 1).2.2 = true ∧
    ((makeIteratorRun c9Env 1).1.filter (fun e => isWaitEv e.2)).length = 2 ∧
    yieldIds (makeIteratorRun c9Env 1).1 = [1] := by
  refine ⟨by decide, by decide, by decide, by decide⟩

/-- C9 amended — Stop-flag sampling holds only for the `$WRSTP$` variant
(the slideShare.js-bundled `newsFeedIterator`): if the flag is set at the
engine's current time it returns immediately, emitting nothing (first
conjunct), and in any run every wait begins at a time at which the flag was
sampled `false` — the engine never begins a new wait after the flag is
observably set (second conjunct). -/
theorem claim_C9_stop_flag :
    (∀ (env : Nat → PageMoment) (fuel : Nat) (pending : List Nat) (st : RunSt),
      (env st.t).stop = true →
      wrOuter env (fuel + 1) pending st = ([], st, true)) ∧
    (∀ (env : Nat → PageMoment) (fuel : Nat) (pending : List Nat) (st : RunSt)
        (t : Nat) (ev : Ev),
      (t, ev) ∈ (wrOuter env fuel pending st).1 → isWaitEv ev = true →
      (env t).stop = false) :=
  ⟨wrOuter_stop_exits, fun env => wrOuter_wait_stop_false env⟩

/-- Witness for C9: immediate exit under a set flag, and a concrete wait in
a flagless run whose begin time indeed has the flag unset. -/
theorem claim_C9_witness :
    wrOuter c9Env 1 [1] ⟨0, []⟩ = ([], ⟨0, []⟩, true) ∧
    (staticEnv 0).stop = false :=
  ⟨claim_C9_stop_flag.1 c9Env 0 [1] ⟨0, []⟩ (by decide),
   claim_C9_stop_flag.2 staticEnv 1 [1, 2] ⟨0, []⟩ 0
     (Ev.scrolled 1 (ScrollAction.toOffset 3)) (by decide) (by decide)⟩

theorem predItrGo_stop_spec :
    ∀ (wins : List RaceWin) (s : MSState),
      s.loopStream = true → s.observing = true → s.moDisconnects = 0 →
      s.timersStarted = s.timersCleared →
      RaceWin.stopTimer ∈ wins →
      ((predItrGo wins s).2.2 = true ∧
       (predItrGo wins s).2.1.moDisconnects = 1 ∧
       (predItrGo wins s).2.1.observing = false ∧
       (predItrGo wins s).2.1.loopStream = false ∧
       (predItrGo wins s).2.1.timersStarted =
         (predItrGo wins s).2.1.timersCleared) := by
  intro wins
  induction wins with
  | nil => intro s _ _ _ _ hmem; simp at hmem
  | cons w rest ih =>
    intro s hl ho hd ht hmem
    obtain ⟨so, sl, sd, sts, stc⟩ := s
    simp only at hl ho hd ht
    subst hl
    subst ho
    subst hd
    subst ht
    rw [predItrGo]
    cases w with
    | stopTimer => simp [msDisconnect]
    | mutation b =>
      have hmem' : RaceWin.stopTimer ∈ rest := by
        rcases List.mem_cons.mp hmem with hcon | hmem'
        · exact absurd hcon (by simp)
        · exact hmem'
      have hrec := ih ⟨true, true, 0, sts + 1, sts + 1⟩ rfl rfl rfl rfl hmem'
      simpa using hrec

/-- C6 — Predicated mutation-stream race: in every run of
`predicatedStream` with a true start predicate in which the stop-predicate
poll timer eventually wins a race (the scenario where `stopPredicate`
becomes true while the awaited mutation never arrives), the stream
terminates (no permanent hang), the underlying observer is disconnected
exactly once and ends disconnected, every started poll timer has been
cleared (cancelled on either race outcome), and the poll cadence constant is
1.5 seconds. -/
theorem claim_C6_predicated_race (wins : List RaceWin)
    (h : RaceWin.stopTimer ∈ wins) :
    (predicatedStreamRun true wins).2.2 = true ∧
    (predicatedStreamRun true wins).2.1.moDisconnects = 1 ∧
    (predicatedStreamRun true wins).2.1.observing = false ∧
    (predicatedStreamRun true wins).2.1.timersStarted =
      (predicatedStreamRun true wins).2.1.timersCleared ∧
    msPollIntervalMs = 1500 := by
  have hs := predItrGo_stop_spec wins (msObserve msInit) rfl rfl rfl rfl h
  have heq : predicatedStreamRun true wins = predItrGo wins (msObserve msInit) := by
    simp [predicatedStreamRun, predicateStreamItr]
  rw [heq]
  exact ⟨hs.1, hs.2.1, hs.2.2.1, hs.2.2.2.2, rfl⟩

/-- Witness for C6: one mutation batch, then the poll timer wins. -/
theorem claim_C6_witness :
    (predicatedStreamRun true [RaceWin.mutation 3, RaceWin.stopTimer]).2.2 =
      true ∧
    (predicatedStreamRun true
      [RaceWin.mutation 3, RaceWin.stopTimer]).2.1.moDisconnects = 1 ∧
    (predicatedStreamRun true
      [RaceWin.mutation 3, RaceWin.stopTimer]).2.1.observing = false ∧
    (predicatedStreamRun true
      [RaceWin.mutation 3, RaceWin.stopTimer]).2.1.timersStarted =
      (predicatedStreamRun true
        [RaceWin.mutation 3, RaceWin.stopTimer]).2.1.timersCleared ∧
    msPollIntervalMs = 1500 :=
  claim_C6_predicated_race [RaceWin.mutation 3, RaceWin.stopTimer] (by decide)

theorem wfaecGo_spec (disc : Nat → Bool) (childLen : Nat → Nat) (cur mx : Nat) :
    ∀ (k n t : Nat), mx + 1 - n ≤ k →
      (wfaecGo disc childLen cur mx n t ≤ t + (mx + 1 - n) ∧
       (∀ u, t ≤ u → u < wfaecGo disc childLen cur mx n t →
          (disc u || decide (cur < childLen u)) = false) ∧
       ((disc (wfaecGo disc childLen cur mx n t) ||
           decide (cur < childLen (wfaecGo disc childLen cur mx n t))) = true ∨
         wfaecGo disc childLen cur mx n t = t + (mx + 1 - n))) := by
  intro k
  induction k with
  | zero =>
    intro n t hk
    have hn : mx < n := by omega
    have hcond : (disc t || decide (cur < childLen t) || decide (mx < n))
        = true := by
      have : decide (mx < n) = true := decide_eq_true hn
      simp [this]
    have hres : wfaecGo disc childLen cur mx n t = t := by
      rw [wfaecGo, dif_pos hcond]
    refine ⟨by omega, ?_, Or.inr (by omega)⟩
    intro u hu1 hu2
    rw [hres] at hu2
    omega
  | succ k ihk =>
    intro n t hk
    by_cases hcond : (disc t || decide (cur < childLen t) || decide (mx < n))
        = true
    · have hres : wfaecGo disc childLen cur mx n t = t := by
        rw [wfaecGo, dif_pos hcond]
      refine ⟨by omega, ?_, ?_⟩
      · intro u hu1 hu2
        rw [hres] at hu2
        omega
      · have hcond' : (disc t = true ∨ cur < childLen t) ∨ mx < n := by
          simpa [Bool.or_eq_true, decide_eq_true_eq] using hcond
        rcases hcond' with (h1 | h1) | h2
        · exact Or.inl (by rw [hres]; simp [h1])
        · exact Or.inl (by rw [hres]; simp [decide_eq_true h1])
        · exact Or.inr (by omega)
    · have hrec : wfaecGo disc childLen cur mx n t =
          wfaecGo disc childLen cur mx (n + 1) (t + 1) := by
        rw [wfaecGo, dif_neg hcond]
      have hparts : (disc t = false ∧ childLen t ≤ cur) ∧ n ≤ mx := by
        simpa [not_or] using hcond
      have hnle : n ≤ mx := hparts.2
      obtain ⟨ha, hb, hc⟩ := ihk (n + 1) (t + 1) (by omega)
      refine ⟨?_, ?_, ?_⟩
      · rw [hrec]
        omega
      · intro u hu1 hu2
        rw [hrec] at hu2
        by_cases hu : u = t
        · subst hu
          simp [hparts.1.1, Nat.not_lt.mpr hparts.1.2]
        · exact hb u (by omega) hu2
      · rw [hrec]
        rcases hc with hcl | hcr
        · exact Or.inl hcl
        · refine Or.inr ?_
          rw [hcr]
          have : n ≤ mx := hparts.2
          omega

/-- C10 amended — Bounded child wait: `waitForAdditionalElemChildren` always
resolves, by the tick at which the give-up counter exceeds `max` — which is
poll tick `max + 2`, not `max + 1` as claimed (`n` starts at 0 and is
incremented after the give-up check, so ticks 1 through `max + 2` run).
Before the resolution tick neither resolve condition (parent disconnected,
child count above `currentChildCount`) ever held; at the resolution tick
either one of them holds or the wait gave up exactly at tick `max + 2`.
Defaults are `max = 6`, `pollRate = 1000` ms. -/
theorem claim_C10_child_wait (disc : Nat → Bool) (childLen : Nat → Nat)
    (cur mx : Nat) :
    waitForAdditionalElemChildren disc childLen cur mx ≤ mx + 2 ∧
    (∀ u, 1 ≤ u → u < waitForAdditionalElemChildren disc childLen cur mx →
       (disc u || decide (cur < childLen u)) = false) ∧
    ((disc (waitForAdditionalElemChildren disc childLen cur mx) ||
        decide (cur <
          childLen (waitForAdditionalElemChildren disc childLen cur mx)))
        = true ∨
      waitForAdditionalElemChildren disc childLen cur mx = mx + 2) ∧
    wfaecDefaultMax = 6 ∧ wfaecDefaultPollRate = 1000 := by
  obtain ⟨ha, hb, hc⟩ :=
    wfaecGo_spec disc childLen cur mx (mx + 1) 0 1 (by omega)
  refine ⟨?_, ?_, ?_, rfl, rfl⟩
  · unfold waitForAdditionalElemChildren
    omega
  · unfold waitForAdditionalElemChildren
    intro u h1 h2
    exact hb u h1 h2
  · unfold waitForAdditionalElemChildren
    rcases hc with h | h
    · exact Or.inl h
    · exact Or.inr (by omega)

/-- C10 counterexample — with the default `max` of 6, an always-connected
parent and no new children, the promise resolves at poll tick 8
(`max + 2`), not at `max + 1 = 7` as the claim states. -/
theorem claim_C10_counterexample :
    waitForAdditionalElemChildren (fun _ => false) (fun _ => 0) 0
      wfaecDefaultMax = wfaecDefaultMax + 2 ∧
    wfaecDefaultMax + 2 = 8 ∧
    wfaecDefaultMax + 1 = 7 := by
  refine ⟨?_, rfl, rfl⟩
  obtain ⟨_, _, hc⟩ := wfaecGo_spec (fun _ => false) (fun _ => 0) 0
    wfaecDefaultMax (wfaecDefaultMax + 1) 0 1 (by omega)
  unfold waitForAdditionalElemChildren
  rcases hc with h | h
  · simp at h
  · rw [h]
    omega

/-- Witness for C10 at concrete parameters. -/
theorem claim_C10_witness :
    waitForAdditionalElemChildren (fun _ => false) (fun u => u) 3 6 ≤ 8 :=
  (claim_C10_child_wait (fun _ => false) (fun u => u) 3 6).1

/-- Witness for C4 on the concrete static page. -/
theorem claim_C4_witness :
    (makeIteratorRun (fun _ => staticPage) 1).2.2 = true ∧
    yieldIds (makeIteratorRun (fun _ => staticPage) 1).1 =
      getFeedItems fbQueryMarker (fun _ => staticPage) 0 [] ∧
    advanceCalls (makeIteratorRun (fun _ => staticPage) 1).1 ≤
      staticPage.items.length + 1 :=
  claim_C4_termination staticPage
